import Mathlib

/-!
Verification of the transcription pipeline of the vet-transcription-platform
repository: the ASR adapter's post-processing (`parseTime`, `extractSegments`,
confidence averaging), the queue adapter's configuration and priority
classifier, and the transcription worker's `processTranscription` pipeline.

JavaScript numbers are modelled as rationals (`ℚ`), JavaScript strings as
lists of characters (`JStr`), and fallible external calls as `Except` values.
-/

namespace VetTranscription

/-- A JavaScript string, modelled as its list of characters. -/
abbrev JStr := List Char

/-- JavaScript `s.split(' ')` for a single-character separator: `""` splits to
`[""]`, and every occurrence of the separator cuts, producing possibly empty
chunks.  Used by `extractSegments` to count the words of the running segment. -/
def splitSpace : JStr → List JStr
  | [] => [[]]
  | c :: rest =>
    if c = ' ' then [] :: splitSpace rest
    else
      match splitSpace rest with
      | [] => [[c]]
      | t :: ts => (c :: t) :: ts

/-- The `wordCount` of a segment text in `extractSegments`:
`currentSegment.text.split(' ').length`. -/
def wordCount (s : JStr) : ℕ := (splitSpace s).length

/-- The possible JavaScript values fed to `parseTime` (the `any`-typed
`timeStr` argument): a missing value (`undefined`/`null`), a number, a
`{seconds, nanos}` object (a missing field is encoded as `0`, which the code
treats identically via falsiness / `|| 0`), a string, or any other value. -/
inductive JsTime where
  | undef : JsTime
  | num (q : ℚ) : JsTime
  | obj (seconds nanos : ℚ) : JsTime
  | str (s : JStr) : JsTime
  | other : JsTime
deriving DecidableEq

/-- Value of a digit character. -/
def digitVal (c : Char) : ℕ := c.toNat - '0'.toNat

/-- Numeric value of a digit string (the integer part of a matched decimal). -/
def digitsVal (ds : JStr) : ℕ := ds.foldl (fun n c => 10 * n + digitVal c) 0

/-- `parseFloat` of a matched decimal `ds . fs` (the fractional digit list may
be empty, in which case the value is just the integer part). -/
def decimalVal (ds fs : JStr) : ℚ :=
  (digitsVal ds : ℚ) + (digitsVal fs : ℚ) / (10 : ℚ) ^ fs.length

/-- First match of the regex `(\d+(?:\.\d+)?)` in a string: scans for the
first digit, takes the maximal digit run, and optionally a `.` followed by a
non-empty digit run.  Returns the integer and fractional digit lists. -/
def findDecimal : JStr → Option (JStr × JStr)
  | [] => none
  | c :: rest =>
    if c.isDigit then
      let ds := (c :: rest).takeWhile Char.isDigit
      match (c :: rest).dropWhile Char.isDigit with
      | '.' :: r2 =>
        let fs := r2.takeWhile Char.isDigit
        if fs = [] then some (ds, []) else some (ds, fs)
      | _ => some (ds, [])
    else findDecimal rest

/-- `AsrAdapter.parseTime` (src/backend/src/infrastructure/adapters/asr/
asr.adapter.ts:342-357): `if (!timeStr) return 0` (so the number `0` and the
empty string fall through to `0`); a number is returned unchanged; an object
is read as `seconds + nanos/1e9` **only when `timeStr.seconds` is truthy**
(nonzero); a string is matched against `(\d+(?:\.\d+)?)` and the match parsed
with `parseFloat`; anything else yields `0`. -/
def parseTime : JsTime → ℚ
  | .undef => 0
  | .num q => if q = 0 then 0 else q
  | .obj seconds nanos => if seconds = 0 then 0 else seconds + nanos / 1000000000
  | .str s =>
    if s = [] then 0
    else
      match findDecimal s with
      | none => 0
      | some (ds, fs) => decimalVal ds fs
  | .other => 0

/-- One word of a Google Cloud Speech alternative: `word.word || ''` is the
text (a missing text is encoded as the empty string, which `|| ''` maps to
itself), and the two time fields are fed to `parseTime`. -/
structure GWord where
  word : JStr
  startTime : JsTime
  endTime : JsTime
deriving DecidableEq

/-- One alternative of an ASR result: `alternative.confidence || 0` supplies
the confidence (`none` models a missing field) and `alternative.words || []`
the word list. -/
structure GAlternative where
  confidence : Option ℚ
  words : List GWord
deriving DecidableEq

/-- One ASR result; a missing `alternatives` array is encoded as `[]`
(`result.alternatives?.[0]` is undefined in both cases). -/
structure GResult where
  alternatives : List GAlternative
deriving DecidableEq

/-- `TranscriptSegment` (asr.adapter.ts:21-27). -/
structure TranscriptSegment where
  startTime : ℚ
  endTime : ℚ
  text : JStr
  confidence : ℚ
deriving DecidableEq

/-- The mutable `currentSegment` of `extractSegments`: `startTime` and
`endTime` are `Option` because the reset object literal
`{ text: '', confidence: ... }` leaves them undefined; the push sites read
them as `currentSegment.startTime || 0` / `currentSegment.endTime || 0`. -/
structure SegBuf where
  text : JStr
  startTime : Option ℚ
  endTime : Option ℚ
  confidence : ℚ
deriving DecidableEq

/-- The segment pushed by `extractSegments`: undefined (or zero) times read as
`0` via `|| 0`; `Option.getD 0` agrees with `|| 0` on rationals because
`0 || 0` is `0`. -/
def pushSeg (buf : SegBuf) : TranscriptSegment :=
  { startTime := buf.startTime.getD 0
    endTime := buf.endTime.getD 0
    text := buf.text
    confidence := buf.confidence }

/-- The `words.forEach` loop of `extractSegments` (asr.adapter.ts:288-330),
including the trailing `if (currentSegment.text) segments.push(...)` after the
loop (the base case).  Per iteration: the segment start time is (re)assigned
while the accumulated text is still empty, the word text is appended with a
space separator when the text is non-empty, the end time is overwritten, and
the segment is closed when the split word count of the new text reaches 10 or
the word is the last of the result; the reset buffer leaves both times
undefined. -/
def wordsLoop (conf : ℚ) : List GWord → SegBuf → List TranscriptSegment
  | [], buf => if buf.text = [] then [] else [pushSeg buf]
  | w :: rest, buf =>
    let st := parseTime w.startTime
    let et := parseTime w.endTime
    let start1 : Option ℚ := if buf.text = [] then some st else buf.startTime
    let newText := buf.text ++ (if buf.text = [] then [] else [' ']) ++ w.word
    let buf2 : SegBuf := ⟨newText, start1, some et, buf.confidence⟩
    if 10 ≤ wordCount newText ∨ rest = [] then
      (if newText = [] then [] else [pushSeg buf2]) ++
        wordsLoop conf rest ⟨[], none, none, conf⟩
    else
      wordsLoop conf rest buf2

/-- Segments contributed by one result in `extractSegments`: only the first
alternative is consulted; a result with a missing or empty alternatives array
is skipped (`if (!alternative) return`). -/
def segmentsOfResult (r : GResult) : List TranscriptSegment :=
  match r.alternatives.head? with
  | none => []
  | some alt => wordsLoop (alt.confidence.getD 0) alt.words
      ⟨[], some 0, none, alt.confidence.getD 0⟩

/-- `AsrAdapter.extractSegments` (asr.adapter.ts:274-334): `results.forEach`
pushing into one shared `segments` array, modelled as a left fold appending
each result's contribution. -/
def extractSegments (results : List GResult) : List TranscriptSegment :=
  results.foldl (fun acc r => acc ++ segmentsOfResult r) []

/-- Sizes of the segments produced from `n` single-token words by the cut
rule: chunks of 10 with a shorter final chunk. -/
def chunkSizes : ℕ → List ℕ
  | 0 => []
  | n + 1 => if n + 1 ≤ 10 then [n + 1] else 10 :: chunkSizes (n - 9)

/-- Sizes of the segments still to be produced when the running segment
already holds `c` words and `n` words remain: the cut fires when the count
reaches 10 or the word is the last one. -/
def sizesFrom (c : ℕ) : ℕ → List ℕ
  | 0 => if c = 0 then [] else [c]
  | n + 1 => if 10 ≤ c + 1 ∨ n = 0 then (c + 1) :: sizesFrom 0 n else sizesFrom (c + 1) n

/-- The overall confidence computed by `transcribeWithGoogleCloudSpeech`
(asr.adapter.ts:209-240): `0` on the zero-results early return, otherwise the
`reduce`-sum of `alt.confidence || 0` over all alternatives of all results,
divided by their number when there is at least one. -/
def responseConfidence (results : List GResult) : ℚ :=
  if results.length = 0 then 0
  else
    let confidences :=
      (results.flatMap (fun r => r.alternatives)).map (fun a => a.confidence.getD 0)
    if 0 < confidences.length then
      confidences.foldl (· + ·) 0 / (confidences.length : ℚ)
    else 0

/-- Follows the spec's words (refinement reference for C3): the arithmetic
mean of the confidences of all alternatives across all results, a missing
confidence counting as 0, and 0 when no alternatives are returned. -/
def meanConfidenceSpec (results : List GResult) : ℚ :=
  let cs := (results.flatMap (fun r => r.alternatives)).map (fun a => a.confidence.getD 0)
  if cs = [] then 0 else cs.sum / (cs.length : ℚ)

/-- `QueueAdapter.calculatePriority` (asr.adapter.ts, queue adapter part,
lines 827-843). -/
def calculatePriority (durationSeconds : ℚ) : ℕ :=
  if durationSeconds ≤ 300 then 1
  else if durationSeconds ≤ 900 then 2
  else if durationSeconds ≤ 1800 then 3
  else 4

/-- The `backoff` part of the queue's default job options. -/
structure BackoffOptions where
  type : String
  delay : ℕ
deriving DecidableEq

/-- A retention window (`removeOnComplete`/`removeOnFail`). -/
structure RetentionOptions where
  age : ℕ
deriving DecidableEq

/-- The `defaultJobOptions` passed when the transcriptions queue is created. -/
structure DefaultJobOptions where
  attempts : ℕ
  backoff : BackoffOptions
  removeOnComplete : RetentionOptions
  removeOnFail : RetentionOptions
deriving DecidableEq

/-- The literal `defaultJobOptions` of `QueueAdapter.onModuleInit`
(asr.adapter.ts, queue adapter part, lines 495-513). -/
def transcriptionQueueDefaultJobOptions : DefaultJobOptions :=
  { attempts := 3
    backoff := { type := "exponential", delay := 2000 }
    removeOnComplete := { age := 3600 }
    removeOnFail := { age := 86400 } }

/-- The worker `settings` literal of
`QueueAdapter.registerTranscriptionProcessor` (asr.adapter.ts, queue adapter
part, lines 780-797). -/
structure WorkerSettings where
  lockDuration : ℕ
  lockRenewTime : ℕ
  maxStalledCount : ℕ
  stalledInterval : ℕ
  retryProcessDelay : ℕ
deriving DecidableEq

/-- The concrete settings registered for the transcriptions worker. -/
def transcriptionWorkerSettings : WorkerSettings :=
  { lockDuration := 30000
    lockRenewTime := 15000
    maxStalledCount := 2
    stalledInterval := 5000
    retryProcessDelay := 5000 }

/-- Modelled from the spec: the queue library's exponential backoff (the
library itself is not under src/) delays the k-th retry by the configured
2000 ms base, doubling per prior attempt. -/
def backoffDelayMs (attempt : ℕ) : ℕ :=
  transcriptionQueueDefaultJobOptions.backoff.delay * 2 ^ attempt

/-- The fields of an ASR `TranscriptionResult` the worker forwards to the
status store on completion. -/
structure AsrOut where
  text : String
  segments : List TranscriptSegment
  confidence : ℚ
deriving DecidableEq

/-- A successful write to the status store (`updateTranscriptionStatus`
builds exactly these field sets, transcription.worker.ts:245-284). -/
inductive StoreWrite where
  | processing : StoreWrite
  | completed (text : String) (segments : List TranscriptSegment) (confidence : ℚ) : StoreWrite
  | failed (errorMessage : String) : StoreWrite
deriving DecidableEq

/-- Observable events of one `processTranscription` run, in call order: a
status-store write that the store accepted, the ASR provider call, and a
notification attempt. -/
inductive Event where
  | statusWrite (w : StoreWrite) : Event
  | asrCall : Event
  | notifyCall (status : String) : Event
deriving DecidableEq

/-- Whether an event is a terminal status write (`completed` or `failed`). -/
def isTerminalEvent : Event → Bool
  | .statusWrite (.completed _ _ _) => true
  | .statusWrite (.failed _) => true
  | _ => false

/-- `TranscriptionJobResult` as far as the claims are concerned
(transcription.worker.ts:144-152 and 178-184): `status` plus the optional
payload fields. -/
structure JobResult where
  status : String
  transcriptText : Option String
  segments : Option (List TranscriptSegment)
  confidence : Option ℚ
  errorMessage : Option String
deriving DecidableEq

/-- The completed-branch return value of `processTranscription`. -/
def completedJobResult (out : AsrOut) : JobResult :=
  { status := "completed"
    transcriptText := some out.text
    segments := some out.segments
    confidence := some out.confidence
    errorMessage := none }

/-- The catch-branch return value of `processTranscription`. -/
def failedJobResult (m : String) : JobResult :=
  { status := "failed"
    transcriptText := none
    segments := none
    confidence := none
    errorMessage := some m }

/-- Outcomes of the external calls `processTranscription` may make for one
job, each an `Except` whose `error` carries the thrown error's message:
the three status-store writes (`updateTranscriptionStatus` logs a store error
and **rethrows it**, transcription.worker.ts:278-283, so a write's outcome is
the adapter call's outcome), the audio download, the ASR provider call, and
the two possible `createNotification` calls. -/
structure WorkerEnv where
  processingWrite : Except String Unit
  download : Except String Unit
  asr : Except String AsrOut
  completedWrite : Except String Unit
  failedWrite : Except String Unit
  notifyCompleted : Except String Unit
  notifyFailed : Except String Unit

/-- The result of one `processTranscription` run: the event trace and either
a returned `JobResult` or the message of an exception that escaped. -/
structure RunOutcome where
  events : List Event
  result : Except String JobResult

/-- `TranscriptionWorker.notifyUser` (transcription.worker.ts:296-347): the
whole body is wrapped in try/catch and a notifier error is logged without
rethrowing, so the call always returns normally. -/
def notifyUser (outcome : Except String Unit) : Except String Unit :=
  match outcome with
  | .error _ => .ok ()
  | .ok _ => .ok ()

/-- The catch block of `processTranscription`
(transcription.worker.ts:153-185): write `status=failed` with the caught
message (this write itself may throw, in which case the exception escapes the
method), then best-effort notify, then return a failed `JobResult`. -/
def catchBlock (env : WorkerEnv) (evs : List Event) (m : String) : RunOutcome :=
  match env.failedWrite with
  | .error e2 => { events := evs, result := .error e2 }
  | .ok _ =>
    match notifyUser env.notifyFailed with
    | .error e3 =>
      { events := evs ++ [.statusWrite (.failed m), .notifyCall "failed"]
        result := .error e3 }
    | .ok _ =>
      { events := evs ++ [.statusWrite (.failed m), .notifyCall "failed"]
        result := .ok (failedJobResult m) }

/-- `TranscriptionWorker.processTranscription`
(transcription.worker.ts:78-186): write `processing`, download the audio,
call the ASR provider, write `completed` with text/segments/confidence,
notify, and return a completed result; any exception along the way jumps to
the catch block. -/
def processTranscription (env : WorkerEnv) : RunOutcome :=
  match env.processingWrite with
  | .error e => catchBlock env [] e
  | .ok _ =>
    match env.download with
    | .error e => catchBlock env [Event.statusWrite .processing] e
    | .ok _ =>
      match env.asr with
      | .error e => catchBlock env [Event.statusWrite .processing, Event.asrCall] e
      | .ok out =>
        match env.completedWrite with
        | .error e => catchBlock env [Event.statusWrite .processing, Event.asrCall] e
        | .ok _ =>
          match notifyUser env.notifyCompleted with
          | .error e3 =>
            { events := [Event.statusWrite .processing, Event.asrCall,
                Event.statusWrite (.completed out.text out.segments out.confidence),
                Event.notifyCall "completed"]
              result := .error e3 }
          | .ok _ =>
            { events := [Event.statusWrite .processing, Event.asrCall,
                Event.statusWrite (.completed out.text out.segments out.confidence),
                Event.notifyCall "completed"]
              result := .ok (completedJobResult out) }

/-- A word is a single token: non-empty and without an internal space. -/
def SimpleWord (w : JStr) : Prop := w ≠ [] ∧ ' ' ∉ w

instance (w : JStr) : Decidable (SimpleWord w) := by
  unfold SimpleWord; infer_instance

/-! ## Concrete sample inputs used by witnesses and counterexamples -/

/-- A sample single-token word with no time information. -/
def wSample : GWord := ⟨['w'], JsTime.undef, JsTime.undef⟩

/-- 23 single-token words in one alternative. -/
def alt23 : GAlternative := ⟨none, List.replicate 23 wSample⟩

/-- A result whose single word has a parsed start time of 5 but a missing end
time (which parses to 0). -/
def badTimeResult : GResult :=
  ⟨[{ confidence := some 1,
      words := [⟨['h', 'i'], JsTime.num 5, JsTime.undef⟩] }]⟩

/-- An alternative with well-ordered word times. -/
def goodAlt : GAlternative :=
  { confidence := some 1,
    words := [⟨['h', 'i'], JsTime.num 1, JsTime.num 2⟩,
      ⟨['y', 'o'], JsTime.num 2, JsTime.num 3⟩] }

/-- A result with well-ordered word times. -/
def goodTimeResult : GResult := ⟨[goodAlt]⟩

/-- A result with no alternatives (a missing or empty array). -/
def noAltResult : GResult := ⟨[]⟩

/-- One result carrying two alternatives with confidences 0.95 and 0.85. -/
def confPairResult : GResult :=
  ⟨[⟨some (19 / 20), []⟩, ⟨some (17 / 20), []⟩]⟩

/-- A sample successful ASR outcome. -/
def asrOutSample : AsrOut := ⟨"hello world", [], 9 / 10⟩

/-- Environment where every external call succeeds. -/
def envAllOk : WorkerEnv :=
  ⟨.ok (), .ok (), .ok asrOutSample, .ok (), .ok (), .ok (), .ok ()⟩

/-- Environment where the initial `processing` status write is rejected by
the store but the later `failed` write succeeds. -/
def envProcFail : WorkerEnv :=
  ⟨.error "store down", .ok (), .ok asrOutSample, .ok (), .ok (), .ok (), .ok ()⟩

/-- Environment where the download fails and the status store also rejects
the terminal `failed` write. -/
def envDownloadNoStore : WorkerEnv :=
  ⟨.ok (), .error "Timeout ao baixar arquivo de audio", .ok asrOutSample, .ok (),
    .error "firestore indisponivel", .ok (), .ok ()⟩

/-- Environment where the download fails but the store accepts the `failed`
write. -/
def envDownloadFailOkStore : WorkerEnv :=
  ⟨.ok (), .error "Timeout ao baixar arquivo de audio", .ok asrOutSample, .ok (),
    .ok (), .ok (), .ok ()⟩

/-- Environment where everything succeeds except the completion notifier. -/
def envNotifyFails : WorkerEnv :=
  ⟨.ok (), .ok (), .ok asrOutSample, .ok (), .ok (), .error "notifier down", .ok ()⟩

/-! ## Helper lemmas -/

theorem splitSpace_ne_nil (l : JStr) : splitSpace l ≠ [] := by
  induction l with
  | nil => simp [splitSpace]
  | cons c rest ih =>
    by_cases hc : c = ' '
    · simp [splitSpace, hc]
    · simp only [splitSpace, if_neg hc]
      cases h : splitSpace rest with
      | nil => simp
      | cons t ts => simp

theorem splitSpace_append_space (a b : JStr) :
    splitSpace (a ++ ' ' :: b) = splitSpace a ++ splitSpace b := by
  induction a with
  | nil => simp [splitSpace]
  | cons c a ih =>
    by_cases hc : c = ' '
    · subst hc; simp [splitSpace, ih]
    · simp only [List.cons_append, splitSpace, if_neg hc]
      simp only [List.append_eq]
      rw [ih]
      obtain ⟨t, ts, h⟩ := List.exists_cons_of_ne_nil (splitSpace_ne_nil a)
      rw [h]
      simp

theorem splitSpace_no_space (w : JStr) (h : ' ' ∉ w) : splitSpace w = [w] := by
  induction w with
  | nil => rfl
  | cons c w ih =>
    have hc : c ≠ ' ' := by rintro rfl; exact h (List.mem_cons_self _ _)
    have hw : ' ' ∉ w := fun hm => h (List.mem_cons_of_mem _ hm)
    simp only [splitSpace, if_neg hc, ih hw]

theorem wordCount_pos (s : JStr) : 1 ≤ wordCount s :=
  List.length_pos.mpr (splitSpace_ne_nil s)

theorem wordCount_no_space (w : JStr) (hw : ' ' ∉ w) : wordCount w = 1 := by
  unfold wordCount
  rw [splitSpace_no_space w hw]
  rfl

theorem wordCount_append_word (t w : JStr) (hw : ' ' ∉ w) :
    wordCount (t ++ ' ' :: w) = wordCount t + 1 := by
  unfold wordCount
  rw [splitSpace_append_space, splitSpace_no_space w hw]
  simp

theorem chunkSizes_succ (n : ℕ) :
    chunkSizes (n + 1) = if n + 1 ≤ 10 then [n + 1] else 10 :: chunkSizes (n - 9) := by
  rw [chunkSizes]

theorem sizesFrom_eq (n : ℕ) : ∀ c : ℕ, c ≤ 9 →
    sizesFrom c n = if n = 0 then (if c = 0 then [] else [c])
      else if c + n ≤ 10 then [c + n] else 10 :: chunkSizes (c + n - 10) := by
  induction n with
  | zero => intro c _; simp [sizesFrom]
  | succ n ih =>
    intro c hc
    rw [sizesFrom, if_neg (Nat.succ_ne_zero n)]
    by_cases h10 : 10 ≤ c + 1
    · have hc9 : c = 9 := by omega
      subst hc9
      rw [if_pos (Or.inl h10), ih 0 (by omega)]
      by_cases hn : n = 0
      · subst hn
        norm_num
      · rw [if_neg hn, if_neg (by omega : ¬ 9 + (n + 1) ≤ 10)]
        have e1 : 9 + (n + 1) - 10 = n := by omega
        rw [e1]
        obtain ⟨m, rfl⟩ := Nat.exists_eq_succ_of_ne_zero hn
        rw [chunkSizes_succ]
        simp only [Nat.zero_add, Nat.succ_eq_add_one]
        have e2 : m + 1 - 10 = m - 9 := by omega
        rw [e2]
    · by_cases hn : n = 0
      · subst hn
        rw [if_pos (Or.inr rfl), if_pos (by omega : c + (0 + 1) ≤ 10)]
        simp [sizesFrom]
      · rw [if_neg (by tauto), ih (c + 1) (by omega), if_neg hn]
        have e1 : c + 1 + n = c + (n + 1) := by omega
        rw [e1]

theorem wordsLoop_nil (conf : ℚ) (buf : SegBuf) :
    wordsLoop conf [] buf = if buf.text = [] then [] else [pushSeg buf] := rfl

/-- Unfolding of one loop iteration when the running text is empty: the word
text becomes the whole text and the start time is assigned. -/
theorem wordsLoop_cons_empty (conf : ℚ) (w : GWord) (rest : List GWord)
    (buf : SegBuf) (hbe : buf.text = []) :
    wordsLoop conf (w :: rest) buf =
      if 10 ≤ wordCount w.word ∨ rest = [] then
        (if w.word = [] then [] else
          [pushSeg ⟨w.word, some (parseTime w.startTime),
            some (parseTime w.endTime), buf.confidence⟩]) ++
          wordsLoop conf rest ⟨[], none, none, conf⟩
      else
        wordsLoop conf rest ⟨w.word, some (parseTime w.startTime),
          some (parseTime w.endTime), buf.confidence⟩ := by
  obtain ⟨t, st, et, cf⟩ := buf
  simp only at hbe
  subst hbe
  simp [wordsLoop]

/-- Unfolding of one loop iteration when the running text is non-empty: the
word is appended after a space, the start time is kept, and the pushed text is
never empty. -/
theorem wordsLoop_cons_ne (conf : ℚ) (w : GWord) (rest : List GWord)
    (buf : SegBuf) (hbne : buf.text ≠ []) :
    wordsLoop conf (w :: rest) buf =
      if 10 ≤ wordCount (buf.text ++ ' ' :: w.word) ∨ rest = [] then
        pushSeg ⟨buf.text ++ ' ' :: w.word, buf.startTime,
            some (parseTime w.endTime), buf.confidence⟩ ::
          wordsLoop conf rest ⟨[], none, none, conf⟩
      else
        wordsLoop conf rest ⟨buf.text ++ ' ' :: w.word, buf.startTime,
          some (parseTime w.endTime), buf.confidence⟩ := by
  obtain ⟨t, st, et, cf⟩ := buf
  simp only at hbne
  have hne : t ++ ' ' :: w.word ≠ [] := by simp
  simp only [wordsLoop, if_neg hbne]
  have harr : t ++ [' '] ++ w.word = t ++ ' ' :: w.word := by
    rw [List.append_assoc, List.singleton_append]
  rw [harr]
  split
  · simp [if_neg hne]
  · rfl

theorem wordsLoop_sizes (conf : ℚ) :
    ∀ (ws : List GWord) (buf : SegBuf),
      (∀ w ∈ ws, SimpleWord w.word) →
      (buf.text = [] ∨ (wordCount buf.text ≤ 9 ∧ buf.text ≠ [])) →
      (wordsLoop conf ws buf).map (fun s => wordCount s.text)
        = sizesFrom (if buf.text = [] then 0 else wordCount buf.text) ws.length := by
  intro ws
  induction ws with
  | nil =>
    intro buf _ hbuf
    rcases hbuf with h | ⟨hc, hne⟩
    · simp [wordsLoop_nil, h, sizesFrom]
    · have hpos := wordCount_pos buf.text
      simp [wordsLoop_nil, hne, sizesFrom, pushSeg, Nat.not_eq_zero_of_lt hpos]
  | cons w rest ih =>
    intro buf hws hbuf
    obtain ⟨hw_ne, hw_nospace⟩ := hws w (List.mem_cons_self _ _)
    have hws' : ∀ x ∈ rest, SimpleWord x.word :=
      fun x hx => hws x (List.mem_cons_of_mem _ hx)
    rcases hbuf with hbe | ⟨hc9, hbne⟩
    · -- empty running segment: the new text is just the word, one token
      have hcount : wordCount w.word = 1 := wordCount_no_space _ hw_nospace
      rw [wordsLoop_cons_empty conf w rest buf hbe]
      rw [if_pos hbe, List.length_cons, sizesFrom]
      by_cases hrest : rest = []
      · subst hrest
        rw [if_pos (show 10 ≤ wordCount w.word ∨ ([] : List GWord) = [] from Or.inr rfl)]
        rw [if_pos (show 10 ≤ 0 + 1 ∨ ([] : List GWord).length = 0 by simp)]
        simp [wordsLoop_nil, hw_ne, pushSeg, hcount, sizesFrom]
      · have hlen : rest.length ≠ 0 := by simp [hrest]
        rw [if_neg (show ¬ (10 ≤ wordCount w.word ∨ rest = []) by simp [hcount, hrest])]
        rw [if_neg (show ¬ (10 ≤ 0 + 1 ∨ rest.length = 0) by omega)]
        have h9 : wordCount w.word ≤ 9 := by omega
        rw [ih _ hws' (Or.inr ⟨h9, hw_ne⟩)]
        simp [hw_ne, hcount]
    · -- non-empty running segment of c ≤ 9 tokens: the count grows by one
      have hnew : wordCount (buf.text ++ ' ' :: w.word) = wordCount buf.text + 1 :=
        wordCount_append_word _ _ hw_nospace
      have hnew_ne : buf.text ++ ' ' :: w.word ≠ [] := by simp
      rw [wordsLoop_cons_ne conf w rest buf hbne]
      rw [if_neg hbne, List.length_cons, sizesFrom]
      by_cases hcut : 10 ≤ wordCount buf.text + 1 ∨ rest = []
      · have hcut1 : 10 ≤ wordCount (buf.text ++ ' ' :: w.word) ∨ rest = [] := by
          rw [hnew]; exact hcut
        have hcut2 : 10 ≤ wordCount buf.text + 1 ∨ rest.length = 0 := by
          rcases hcut with h | h
          · exact Or.inl h
          · exact Or.inr (by simp [h])
        rw [if_pos hcut1, if_pos hcut2, List.map_cons]
        rw [ih _ hws' (Or.inl rfl)]
        simp [pushSeg, hnew]
      · have hcut1 : ¬ (10 ≤ wordCount (buf.text ++ ' ' :: w.word) ∨ rest = []) := by
          rw [hnew]; exact hcut
        obtain ⟨h10, hrest⟩ := not_or.mp hcut
        have hcut2 : ¬ (10 ≤ wordCount buf.text + 1 ∨ rest.length = 0) := by
          rw [not_or]
          exact ⟨h10, by simpa [List.length_eq_zero] using hrest⟩
        rw [if_neg hcut1, if_neg hcut2]
        have h9 : wordCount (buf.text ++ ' ' :: w.word) ≤ 9 := by omega
        rw [ih _ hws' (Or.inr ⟨h9, hnew_ne⟩)]
        simp [hnew_ne, hnew]

theorem extractSegments_foldl (l : List GResult) (acc : List TranscriptSegment) :
    l.foldl (fun a r => a ++ segmentsOfResult r) acc = acc ++ l.flatMap segmentsOfResult := by
  induction l generalizing acc with
  | nil => simp
  | cons r l ih => simp [List.foldl_cons, ih]

theorem extractSegments_eq_flatMap (results : List GResult) :
    extractSegments results = results.flatMap segmentsOfResult := by
  unfold extractSegments
  rw [extractSegments_foldl]
  simp

/-- Invariant proof for the time bounds: if every word of the list has its
parsed start time at most its parsed end time, parsed end times are
non-decreasing along the list, and the running segment (when non-empty)
carries a start at most its end and at most every upcoming end, then every
produced segment has `startTime ≤ endTime`. -/
theorem wordsLoop_start_le_end (conf : ℚ) :
    ∀ (ws : List GWord) (buf : SegBuf),
      (∀ w ∈ ws, parseTime w.startTime ≤ parseTime w.endTime) →
      List.Pairwise (fun a b => parseTime a.endTime ≤ parseTime b.endTime) ws →
      (buf.text ≠ [] → ∃ s e, buf.startTime = some s ∧ buf.endTime = some e ∧ s ≤ e ∧
        ∀ w ∈ ws, s ≤ parseTime w.endTime) →
      ∀ seg ∈ wordsLoop conf ws buf, seg.startTime ≤ seg.endTime := by
  intro ws
  induction ws with
  | nil =>
    intro buf _ _ hbuf seg hseg
    rw [wordsLoop_nil] at hseg
    by_cases hbe : buf.text = []
    · simp [hbe] at hseg
    · rw [if_neg hbe] at hseg
      obtain ⟨s, e, hs, he, hle, _⟩ := hbuf hbe
      simp only [List.mem_singleton] at hseg
      subst hseg
      simpa [pushSeg, hs, he] using hle
  | cons w rest ih =>
    intro buf h1 hpw hbuf seg hseg
    have hw1 : parseTime w.startTime ≤ parseTime w.endTime :=
      h1 w (List.mem_cons_self _ _)
    have h1' : ∀ x ∈ rest, parseTime x.startTime ≤ parseTime x.endTime :=
      fun x hx => h1 x (List.mem_cons_of_mem _ hx)
    rw [List.pairwise_cons] at hpw
    by_cases hbe : buf.text = []
    · rw [wordsLoop_cons_empty conf w rest buf hbe] at hseg
      by_cases hcut : 10 ≤ wordCount w.word ∨ rest = []
      · rw [if_pos hcut] at hseg
        rcases List.mem_append.mp hseg with hmem | hmem
        · by_cases hwe : w.word = []
          · simp [hwe] at hmem
          · rw [if_neg hwe, List.mem_singleton] at hmem
            subst hmem
            simpa [pushSeg] using hw1
        · exact ih ⟨[], none, none, conf⟩ h1' hpw.2 (fun hh => absurd rfl hh) seg hmem
      · rw [if_neg hcut] at hseg
        refine ih _ h1' hpw.2 ?_ seg hseg
        intro _
        exact ⟨parseTime w.startTime, parseTime w.endTime, rfl, rfl, hw1,
          fun x hx => le_trans hw1 (hpw.1 x hx)⟩
    · obtain ⟨s, e, hs, he, hle, hall⟩ := hbuf hbe
      rw [wordsLoop_cons_ne conf w rest buf hbe] at hseg
      by_cases hcut : 10 ≤ wordCount (buf.text ++ ' ' :: w.word) ∨ rest = []
      · rw [if_pos hcut] at hseg
        rcases List.mem_cons.mp hseg with hmem | hmem
        · subst hmem
          simpa [pushSeg, hs] using hall w (List.mem_cons_self _ _)
        · exact ih ⟨[], none, none, conf⟩ h1' hpw.2 (fun hh => absurd rfl hh) seg hmem
      · rw [if_neg hcut] at hseg
        refine ih _ h1' hpw.2 ?_ seg hseg
        intro _
        exact ⟨s, parseTime w.endTime, hs, rfl, hall w (List.mem_cons_self _ _),
          fun x hx => hall x (List.mem_cons_of_mem _ hx)⟩

theorem segmentsOfResult_cons (alt : GAlternative) (rest : List GAlternative) :
    segmentsOfResult ⟨alt :: rest⟩
      = wordsLoop (alt.confidence.getD 0) alt.words
          ⟨[], some 0, none, alt.confidence.getD 0⟩ := rfl

theorem sizesFrom_zero (n : ℕ) : sizesFrom 0 n = chunkSizes n := by
  rw [sizesFrom_eq n 0 (by omega)]
  cases n with
  | zero => simp [chunkSizes]
  | succ m =>
    rw [if_neg (Nat.succ_ne_zero m), chunkSizes_succ]
    simp only [Nat.zero_add]
    have e : m + 1 - 10 = m - 9 := by omega
    rw [e]

theorem chunkSizes_23 : chunkSizes 23 = [10, 10, 3] := by
  rw [show (23 : ℕ) = 22 + 1 from rfl, chunkSizes_succ]
  norm_num
  rw [show (13 : ℕ) = 12 + 1 from rfl, chunkSizes_succ]
  norm_num
  rw [show (3 : ℕ) = 2 + 1 from rfl, chunkSizes_succ]
  norm_num

theorem decimalVal_nonneg (ds fs : JStr) : 0 ≤ decimalVal ds fs := by
  unfold decimalVal
  positivity

theorem notifyUser_ok (x : Except String Unit) : notifyUser x = Except.ok () := by
  cases x <;> rfl

theorem catchBlock_ok (env : WorkerEnv) (hfw : env.failedWrite = Except.ok ())
    (evs : List Event) (m : String) :
    catchBlock env evs m
      = { events := evs ++ [Event.statusWrite (StoreWrite.failed m),
            Event.notifyCall "failed"]
          result := Except.ok (failedJobResult m) } := by
  unfold catchBlock
  rw [hfw, notifyUser_ok]

/-! ## Claims -/

/-- C1: the Segment Extractor walks the words of the first alternative in
order and closes the running segment exactly when the word count reaches 10
or the word is the last of the result: for an alternative of single-token
words, the produced segment word counts are the 10-chunks of the word count
(`chunkSizes`); hence 23 words give exactly 3 segments of sizes [10, 10, 3]
and 0 words give 0 segments. -/
theorem C1_segment_cut_rule (alt : GAlternative)
    (hws : ∀ w ∈ alt.words, SimpleWord w.word) :
    ((extractSegments [⟨[alt]⟩]).map (fun s => wordCount s.text)
        = chunkSizes alt.words.length)
    ∧ (alt.words.length = 23 →
        (extractSegments [⟨[alt]⟩]).map (fun s => wordCount s.text) = [10, 10, 3])
    ∧ (alt.words = [] → extractSegments [⟨[alt]⟩] = []) := by
  have hmain : (extractSegments [⟨[alt]⟩]).map (fun s => wordCount s.text)
      = chunkSizes alt.words.length := by
    rw [extractSegments_eq_flatMap]
    simp only [List.flatMap_cons, List.flatMap_nil, List.append_nil]
    rw [segmentsOfResult_cons]
    rw [wordsLoop_sizes _ alt.words _ hws (Or.inl rfl)]
    rw [if_pos rfl]
    exact sizesFrom_zero _
  refine ⟨hmain, ?_, ?_⟩
  · intro h23
    rw [hmain, h23]
    exact chunkSizes_23
  · intro h0
    rw [h0] at hmain
    simp only [List.length_nil, chunkSizes] at hmain
    exact List.map_eq_nil_iff.mp hmain

/-- C1 witness: a concrete alternative of 23 one-letter words yields segments
of sizes [10, 10, 3]. -/
theorem C1_witness :
    (extractSegments [⟨[alt23]⟩]).map (fun s => wordCount s.text) = [10, 10, 3] :=
  (C1_segment_cut_rule alt23 (by decide)).2.1 (by decide)

/-- C3: the overall confidence of an ASR response is the arithmetic mean of
the confidences of all alternatives across all results (missing counts as 0),
0 when none are returned; in particular two alternatives with confidences
0.95 and 0.85 average to 0.90, and zero results give 0. -/
theorem C3_confidence_mean :
    (∀ results : List GResult, responseConfidence results = meanConfidenceSpec results)
    ∧ responseConfidence [confPairResult] = 9 / 10
    ∧ responseConfidence [] = 0 := by
  refine ⟨?_, by norm_num [responseConfidence, confPairResult], by rfl⟩
  intro results
  simp only [responseConfidence, meanConfidenceSpec]
  by_cases h : results = []
  · subst h; simp
  · rw [if_neg (by simpa using h)]
    set cs := (results.flatMap fun r => r.alternatives).map (fun a => a.confidence.getD 0)
      with hcs
    by_cases hnil : cs = []
    · simp [hnil]
    · rw [if_pos (List.length_pos.mpr hnil), if_neg hnil]
      rw [← List.sum_eq_foldl]

/-- C6: the priority classifier maps durations to the documented buckets, is
monotonic non-decreasing, and only takes the values 1-4. -/
theorem C6_priority_classifier :
    (∀ d : ℚ, 0 ≤ d →
      ((d ≤ 300 → calculatePriority d = 1)
        ∧ (300 < d → d ≤ 900 → calculatePriority d = 2)
        ∧ (900 < d → d ≤ 1800 → calculatePriority d = 3)
        ∧ (1800 < d → calculatePriority d = 4)))
    ∧ (∀ d₁ d₂ : ℚ, d₁ ≤ d₂ → calculatePriority d₁ ≤ calculatePriority d₂)
    ∧ calculatePriority 300 = 1 ∧ calculatePriority 900 = 2
    ∧ calculatePriority 1800 = 3
    ∧ (∀ d : ℚ, calculatePriority d = 1 ∨ calculatePriority d = 2
        ∨ calculatePriority d = 3 ∨ calculatePriority d = 4) := by
  refine ⟨?_, ?_, by decide, by decide, by decide, ?_⟩
  · intro d _
    refine ⟨fun h1 => ?_, fun h2 h3 => ?_, fun h4 h5 => ?_, fun h6 => ?_⟩ <;>
      · unfold calculatePriority
        split_ifs <;> linarith
  · intro d₁ d₂ h
    unfold calculatePriority
    split_ifs <;> linarith
  · intro d
    unfold calculatePriority
    split_ifs <;> simp

/-- C6 witness: concrete durations hit the documented buckets. -/
theorem C6_witness :
    calculatePriority 100 = 1 ∧ calculatePriority 301 = 2
    ∧ calculatePriority 2000 = 4 := by
  obtain ⟨hb, hm, _⟩ := C6_priority_classifier
  exact ⟨(hb 100 (by norm_num)).1 (by norm_num),
    (hb 301 (by norm_num)).2.1 (by norm_num) (by norm_num),
    (hb 2000 (by norm_num)).2.2.2 (by norm_num)⟩

/-- C9: every transcription job is enqueued with 3 attempts and exponential
backoff at a 2000 ms base, the worker registers `maxStalledCount = 2`, and
the (spec-modelled) backoff delay doubles per attempt from the 2-second
base. -/
theorem C9_retry_config :
    transcriptionQueueDefaultJobOptions.attempts = 3
    ∧ transcriptionQueueDefaultJobOptions.backoff.type = "exponential"
    ∧ transcriptionQueueDefaultJobOptions.backoff.delay = 2000
    ∧ transcriptionWorkerSettings.maxStalledCount = 2
    ∧ backoffDelayMs 0 = 2000
    ∧ (∀ k : ℕ, backoffDelayMs (k + 1) = 2 * backoffDelayMs k) := by
  refine ⟨rfl, rfl, rfl, rfl, rfl, fun k => ?_⟩
  unfold backoffDelayMs
  ring

/-- C10: a result with a missing or empty alternatives array contributes zero
segments, and the segments of the remaining results appear concatenated in
result order. -/
theorem C10_skip_empty_alternatives :
    (∀ results : List GResult,
      extractSegments results = results.flatMap segmentsOfResult)
    ∧ (∀ r : GResult, r.alternatives = [] → segmentsOfResult r = [])
    ∧ (∀ (xs ys : List GResult) (r : GResult), r.alternatives = [] →
        extractSegments (xs ++ r :: ys) = extractSegments xs ++ extractSegments ys) := by
  refine ⟨extractSegments_eq_flatMap, ?_, ?_⟩
  · intro r hr
    simp [segmentsOfResult, hr]
  · intro xs ys r hr
    rw [extractSegments_eq_flatMap, extractSegments_eq_flatMap,
      extractSegments_eq_flatMap]
    simp [segmentsOfResult, hr]

/-- C10 witness: a result with no alternatives dropped from the middle of a
concrete list leaves the surrounding results' segments concatenated. -/
theorem C10_witness :
    extractSegments ([badTimeResult] ++ noAltResult :: [goodTimeResult])
      = extractSegments [badTimeResult] ++ extractSegments [goodTimeResult] :=
  C10_skip_empty_alternatives.2.2 [badTimeResult] [goodTimeResult] noAltResult rfl

/-- C5 counterexample: the claim fails on the code at two explicit inputs.
An object whose `seconds` field is 0 parses to 0, not to
`0 + 500000000/1e9 = 1/2` (the falsy check skips the object branch), and the
numeric input `-1` is returned unchanged, so the output is negative. -/
theorem C5_counterexample :
    parseTime (JsTime.obj 0 500000000) = 0
    ∧ (0 : ℚ) + 500000000 / 1000000000 = 1 / 2
    ∧ parseTime (JsTime.num (-1)) = -1
    ∧ parseTime (JsTime.num (-1)) < 0 := by
  refine ⟨rfl, by norm_num, by norm_num [parseTime], by norm_num [parseTime]⟩

/-- C5 (amended): `parseTime` maps a numeric input to itself (including
negative numbers), an object input to `seconds + nanos/1e9` only when
`seconds` is nonzero and to 0 when `seconds` is zero or missing, the string
"1.5s" to 3/2, and missing or invalid input to 0; the result is non-negative
for every string, missing, or invalid input and for numeric and object inputs
with non-negative components. -/
theorem C5_parseTime_clauses :
    (∀ q : ℚ, parseTime (JsTime.num q) = q)
    ∧ (∀ s n : ℚ, s ≠ 0 → parseTime (JsTime.obj s n) = s + n / 1000000000)
    ∧ (∀ n : ℚ, parseTime (JsTime.obj 0 n) = 0)
    ∧ parseTime (JsTime.str ['1', '.', '5', 's']) = 3 / 2
    ∧ parseTime JsTime.undef = 0
    ∧ parseTime JsTime.other = 0
    ∧ (∀ s : JStr, 0 ≤ parseTime (JsTime.str s))
    ∧ (∀ q : ℚ, 0 ≤ q → 0 ≤ parseTime (JsTime.num q))
    ∧ (∀ s n : ℚ, 0 ≤ s → 0 ≤ n → 0 ≤ parseTime (JsTime.obj s n)) := by
  refine ⟨?_, ?_, ?_, ?_, rfl, rfl, ?_, ?_, ?_⟩
  · intro q
    simp only [parseTime]
    split_ifs with h
    · exact h.symm
    · rfl
  · intro s n hs
    simp only [parseTime]
    rw [if_neg hs]
  · intro n
    simp only [parseTime]
    simp
  · have hfd : findDecimal ['1', '.', '5', 's'] = some (['1'], ['5']) := by decide
    have h1 : digitsVal ['1'] = 1 := by decide
    have h5 : digitsVal ['5'] = 5 := by decide
    simp only [parseTime, hfd, decimalVal, h1, h5]
    rw [if_neg (by simp)]
    norm_num
  · intro s
    simp only [parseTime]
    split_ifs with h
    · exact le_refl 0
    · cases hf : findDecimal s with
      | none => simp
      | some p =>
        obtain ⟨ds, fs⟩ := p
        simp only [hf]
        exact decimalVal_nonneg ds fs
  · intro q hq
    simp only [parseTime]
    split_ifs with h
    · exact le_refl 0
    · exact hq
  · intro s n hs hn
    simp only [parseTime]
    split_ifs with h
    · exact le_refl 0
    · have hd : (0 : ℚ) ≤ n / 1000000000 :=
        div_nonneg hn (by norm_num)
      linarith

/-- C5 witness: concrete applications of the amended clauses. -/
theorem C5_witness :
    parseTime (JsTime.obj 1 500000000) = 1 + 500000000 / 1000000000
    ∧ (0 : ℚ) ≤ parseTime (JsTime.num 7)
    ∧ (0 : ℚ) ≤ parseTime (JsTime.obj 2 3) := by
  obtain ⟨h1, h2, h3, h4, h5, h6, h7, h8, h9⟩ := C5_parseTime_clauses
  exact ⟨h2 1 500000000 (by norm_num), h8 7 (by norm_num),
    h9 2 3 (by norm_num) (by norm_num)⟩

/-- C7 counterexample: for the unconstrained input `badTimeResult` (one word
whose end time is missing and parses to 0 while its start parses to 5) the
extractor emits a segment with `endTime < startTime`, refuting the claim for
arbitrary inputs. -/
theorem C7_counterexample :
    extractSegments [badTimeResult] = [⟨5, 0, ['h', 'i'], 1⟩]
    ∧ ¬ ((0 : ℚ) ≥ (5 : ℚ)) := by
  exact ⟨by decide, by norm_num⟩

/-- C7 (amended): every produced segment satisfies `endTime ≥ startTime`
provided each word of a consulted (first) alternative has its parsed start
time at most its parsed end time and parsed end times are non-decreasing
along the alternative's word list. -/
theorem C7_end_ge_start (results : List GResult)
    (h : ∀ r ∈ results, ∀ alt, r.alternatives.head? = some alt →
      (∀ w ∈ alt.words, parseTime w.startTime ≤ parseTime w.endTime) ∧
      List.Pairwise (fun a b => parseTime a.endTime ≤ parseTime b.endTime) alt.words) :
    ∀ seg ∈ extractSegments results, seg.startTime ≤ seg.endTime := by
  intro seg hseg
  rw [extractSegments_eq_flatMap] at hseg
  obtain ⟨r, hr, hseg⟩ := List.mem_flatMap.mp hseg
  unfold segmentsOfResult at hseg
  cases halt : r.alternatives.head? with
  | none => rw [halt] at hseg; simp at hseg
  | some alt =>
    rw [halt] at hseg
    obtain ⟨h1, h2⟩ := h r hr alt halt
    exact wordsLoop_start_le_end _ alt.words _ h1 h2 (fun hh => absurd rfl hh) seg hseg

/-- C7 witness: a concrete two-word result with ordered times produces a
segment whose start is at most its end. -/
theorem C7_witness :
    (⟨1, 3, ['h', 'i', ' ', 'y', 'o'], 1⟩ : TranscriptSegment).startTime
      ≤ (⟨1, 3, ['h', 'i', ' ', 'y', 'o'], 1⟩ : TranscriptSegment).endTime := by
  refine C7_end_ge_start [goodTimeResult] ?_ _ (by decide)
  intro r hr alt halt
  rw [List.mem_singleton] at hr
  subst hr
  have halt2 : alt = goodAlt := by
    have h2 := halt
    simp only [goodTimeResult, List.head?_cons, Option.some.injEq] at h2
    exact h2.symm
  subst halt2
  constructor
  · intro w hw
    simp only [goodAlt, List.mem_cons, List.mem_singleton] at hw
    rcases hw with rfl | rfl | h
    · norm_num [parseTime]
    · norm_num [parseTime]
    · cases h
  · simp only [goodAlt, List.pairwise_cons]
    refine ⟨?_, ?_, ?_⟩
    · intro b hb
      simp only [List.mem_singleton] at hb
      subst hb
      norm_num [parseTime]
    · intro b hb
      cases hb
    · simp

/-- C2 counterexample: when the status store rejects the initial `processing`
write ("store down") but accepts the later `failed` write, the run returns a
result (the job is processed) and the store receives a terminal `failed`
write that was not preceded by a `processing` write. -/
theorem C2_counterexample :
    (processTranscription envProcFail).events
      = [Event.statusWrite (StoreWrite.failed "store down"),
        Event.notifyCall "failed"]
    ∧ (processTranscription envProcFail).result
      = Except.ok (failedJobResult "store down")
    ∧ Event.statusWrite StoreWrite.processing ∉ (processTranscription envProcFail).events := by
  refine ⟨rfl, rfl, by decide⟩

/-- C2 (amended): for every run, (i) if the ASR provider is called then the
first store event is the successful `processing` write (so `processing` is
stored before any provider call and before any terminal write); (ii) whenever
the initial `processing` write is accepted by the store it is the first
event; and (iii) every run that returns a result performs exactly one
successful terminal status write. -/
theorem C2_processing_before_terminal (env : WorkerEnv) :
    (Event.asrCall ∈ (processTranscription env).events →
      (processTranscription env).events.head?
        = some (Event.statusWrite StoreWrite.processing))
    ∧ (env.processingWrite = Except.ok () →
      (processTranscription env).events.head?
        = some (Event.statusWrite StoreWrite.processing))
    ∧ (∀ r, (processTranscription env).result = Except.ok r →
      ((processTranscription env).events.filter isTerminalEvent).length = 1) := by
  obtain ⟨pw, dl, asr, cw, fw, nc, nf⟩ := env
  cases pw <;> cases dl <;> cases asr <;> cases cw <;> cases fw <;>
    simp [processTranscription, catchBlock, notifyUser_ok, isTerminalEvent]

/-- C2 witness: in the all-successful environment the first store event is
the `processing` write and exactly one terminal write occurs. -/
theorem C2_witness :
    (processTranscription envAllOk).events.head?
      = some (Event.statusWrite StoreWrite.processing)
    ∧ ((processTranscription envAllOk).events.filter isTerminalEvent).length = 1 := by
  obtain ⟨h1, h2, h3⟩ := C2_processing_before_terminal envAllOk
  exact ⟨h2 rfl, h3 (completedJobResult asrOutSample) rfl⟩

/-- C4 counterexample: on a download failure, if the status store also
rejects the terminal `failed` write, the exception escapes
`processTranscription` (the catch block's own write is unguarded), refuting
the claim for status-store errors. -/
theorem C4_counterexample :
    (processTranscription envDownloadNoStore).result
      = Except.error "firestore indisponivel"
    ∧ (processTranscription envDownloadNoStore).events
      = [Event.statusWrite StoreWrite.processing] :=
  ⟨rfl, rfl⟩

/-- C4 (amended): provided the terminal `failed` write is accepted by the
status store, `processTranscription` never throws: it returns a result, and
on any failure path that result is `failed` with an error message that was
written to the store. -/
theorem C4_no_escape (env : WorkerEnv)
    (hfw : env.failedWrite = Except.ok ()) :
    ∃ r, (processTranscription env).result = Except.ok r
      ∧ (r.status = "completed"
        ∨ (r.status = "failed" ∧ ∃ m, r.errorMessage = some m
            ∧ Event.statusWrite (StoreWrite.failed m)
                ∈ (processTranscription env).events)) := by
  cases hpw : env.processingWrite with
  | error e =>
    refine ⟨failedJobResult e, ?_, Or.inr ⟨rfl, e, rfl, ?_⟩⟩ <;>
      simp [processTranscription, hpw, catchBlock_ok env hfw, failedJobResult]
  | ok u =>
    cases u
    cases hdl : env.download with
    | error e =>
      refine ⟨failedJobResult e, ?_, Or.inr ⟨rfl, e, rfl, ?_⟩⟩ <;>
        simp [processTranscription, hpw, hdl, catchBlock_ok env hfw, failedJobResult]
    | ok u =>
      cases u
      cases hasr : env.asr with
      | error e =>
        refine ⟨failedJobResult e, ?_, Or.inr ⟨rfl, e, rfl, ?_⟩⟩ <;>
          simp [processTranscription, hpw, hdl, hasr, catchBlock_ok env hfw,
            failedJobResult]
      | ok out =>
        cases hcw : env.completedWrite with
        | error e =>
          refine ⟨failedJobResult e, ?_, Or.inr ⟨rfl, e, rfl, ?_⟩⟩ <;>
            simp [processTranscription, hpw, hdl, hasr, hcw, catchBlock_ok env hfw,
              failedJobResult]
        | ok u =>
          cases u
          refine ⟨completedJobResult out, ?_, Or.inl rfl⟩
          simp [processTranscription, hpw, hdl, hasr, hcw, notifyUser_ok]

/-- C4 witness: with a working store, a download failure yields a returned
`failed` result rather than an escaping exception. -/
theorem C4_witness :
    (processTranscription envDownloadFailOkStore).result
      = Except.ok (failedJobResult "Timeout ao baixar arquivo de audio") := by
  have h := C4_no_escape envDownloadFailOkStore rfl
  exact rfl

/-- C8: if the notifier throws after a successful transcription, the error is
swallowed: `processTranscription` still returns the completed result and no
`failed` status write ever reaches the store. -/
theorem C8_notify_failure_swallowed (env : WorkerEnv) (out : AsrOut) (msg : String)
    (hpw : env.processingWrite = Except.ok ())
    (hdl : env.download = Except.ok ())
    (hasr : env.asr = Except.ok out)
    (hcw : env.completedWrite = Except.ok ())
    (hnc : env.notifyCompleted = Except.error msg) :
    (processTranscription env).result = Except.ok (completedJobResult out)
    ∧ (∀ m, Event.statusWrite (StoreWrite.failed m)
        ∉ (processTranscription env).events) := by
  constructor
  · simp [processTranscription, hpw, hdl, hasr, hcw, notifyUser_ok]
  · intro m
    simp [processTranscription, hpw, hdl, hasr, hcw, notifyUser_ok]

/-- C8 witness: the concrete environment whose notifier throws still returns
the completed result. -/
theorem C8_witness :
    (processTranscription envNotifyFails).result
      = Except.ok (completedJobResult asrOutSample) :=
  (C8_notify_failure_swallowed envNotifyFails asrOutSample "notifier down"
    rfl rfl rfl rfl rfl).1

end VetTranscription
